/-
Verification of the automatic clustering pipeline of the clustering-platform
repository: feature preprocessing, algorithm selection, clustering execution,
metric computation, 2-D projection, and the frontend result summaries.

The numeric pipeline is embedded shallowly over ℚ (machine floats are modelled
as exact rationals; ℚ division is total with x / 0 = 0).  Pieces that exist in
the repository only as documented snippets (FRONTEND_SETUP.md) or as the spec's
component contracts are modelled from those words and marked as such in their
doc comments.
-/
import Mathlib

set_option autoImplicit false

namespace ClusteringPlatform

/-! ### Generic list helpers used by the pipeline -/

/-- Arithmetic mean of a list of rationals (0 for the empty list, since
ℚ division is total). -/
def listMean (xs : List ℚ) : ℚ := xs.sum / (xs.length : ℚ)

/-- Population variance of a list of rationals, as `np.var` /
`StandardScaler` use (mean of squared deviations). -/
def listVar (xs : List ℚ) : ℚ :=
  listMean (xs.map (fun x => (x - listMean xs) ^ 2))

/-- Squared Euclidean distance between two equal-length vectors. -/
def sqDist (a b : List ℚ) : ℚ :=
  ((a.zip b).map (fun p => (p.1 - p.2) ^ 2)).sum

/-- The distinct values of a list in order of first appearance.  This is the
class list a per-run categorical encoder builds while scanning a column. -/
def firstAppearances {α : Type} [DecidableEq α] : List α → List α
  | [] => []
  | v :: rest => v :: firstAppearances (rest.filter (fun w => w ≠ v))
termination_by l => l.length
decreasing_by
  simp only [List.length_cons]
  exact Nat.lt_succ_of_le (List.length_filter_le _ _)

/-! ### Data model (spec §3) -/

/-- A cell of the raw tabular dataset: numeric, categorical/text, or missing. -/
inductive Value : Type
  | num (q : ℚ)
  | cat (s : String)
  | missing
deriving DecidableEq, Repr

def Value.isNum : Value → Bool
  | .num _ => true
  | _ => false

def Value.isCat : Value → Bool
  | .cat _ => true
  | _ => false

/-- Numeric content of a cell (0 for non-numeric; only read on numeric cells). -/
def Value.toQ : Value → ℚ
  | .num q => q
  | _ => 0

/-- The string key a cell contributes to categorical encoding; missing entries
are replaced by the `__MISSING__` placeholder. -/
def Value.key : Value → String
  | .cat s => s
  | .num q => toString q
  | .missing => "__MISSING__"

/-- A Dataset: an ordered sequence of rows over a fixed column set, columns
addressed by index `0 ≤ j < ncols`. -/
structure Dataset : Type where
  ncols : ℕ
  rows : List (List Value)
deriving DecidableEq, Repr

/-- A FeatureMatrix: one row of rationals per retained record. -/
structure FeatureMatrix : Type where
  ncols : ℕ
  rows : List (List ℚ)
deriving DecidableEq, Repr

/-- Fatal pipeline errors (spec §7 taxonomy). -/
inductive PipelineError : Type
  | insufficientFeatures
  | insufficientSamples
  | clusteringExecutionError
deriving DecidableEq, Repr

/-! ### Algorithm selection (FRONTEND_SETUP.md, `select_algorithm`) -/

/-- The algorithm families the automatic policy chooses from. -/
inductive Algorithm : Type
  | kmeans
  | dbscan
  | hdbscan
deriving DecidableEq, Repr

/-- `select_algorithm` from FRONTEND_SETUP.md, transcribed branch for branch:
```
if n_samples < 10:   return "K-Means"
elif n_samples > 100: return "HDBSCAN"
elif n_samples > 50:  return "DBSCAN"
else:                return "K-Means"
``` -/
def select_algorithm (n_samples : ℕ) : Algorithm :=
  if n_samples < 10 then .kmeans
  else if n_samples > 100 then .hdbscan
  else if n_samples > 50 then .dbscan
  else .kmeans

/-- A selected algorithm together with its resolved parameters
(spec §3 AlgorithmChoice). -/
inductive AlgorithmChoice : Type
  | kmeans (k : ℕ)
  | dbscan (eps : ℚ) (min_samples : ℕ)
  | hdbscan (min_cluster_size : ℕ) (min_samples : ℕ)
deriving DecidableEq, Repr

/-- The fixed small radius the spec documents as a tunable constant for the
radius-based density algorithm. -/
def defaultEps : ℚ := 1 / 2

/-- HDBSCAN minimum cluster size, from FRONTEND_SETUP.md `execute_clustering`:
`min_cluster_size = max(5, n_samples // 20)`. -/
def hdbscanMinClusterSize (n_samples : ℕ) : ℕ := max 5 (n_samples / 20)

/-- HDBSCAN minimum samples, from FRONTEND_SETUP.md `execute_clustering`:
`min_samples = max(3, min_cluster_size // 2)`. -/
def hdbscanMinSamples (n_samples : ℕ) : ℕ :=
  max 3 (hdbscanMinClusterSize n_samples / 2)

/-- The default AlgorithmChoice for a FeatureMatrix with `n` rows: the
algorithm comes from `select_algorithm`; parameters are those of
FRONTEND_SETUP.md for HDBSCAN and, where the repository records no code
(K-Means cluster count, DBSCAN neighbours), modelled from the spec:
cluster count default 3 capped at `n-1` for `n < 10`, DBSCAN neighbour
count `max(3, n/20)` with the fixed tunable radius. -/
def resolveChoice (n : ℕ) : AlgorithmChoice :=
  match select_algorithm n with
  | .kmeans => .kmeans (if n < 10 then min 3 (n - 1) else 3)
  | .dbscan => .dbscan defaultEps (max 3 (n / 20))
  | .hdbscan => .hdbscan (hdbscanMinClusterSize n) (hdbscanMinSamples n)

/-! ### Feature preprocessing (FRONTEND_SETUP.md `preprocess_data`; spec §4.1) -/

/-- Values of column `j` of the dataset (missing when a row is short). -/
def colVals (d : Dataset) (j : ℕ) : List Value :=
  d.rows.map (fun r => r.getD j .missing)

/-- Numeric-dtype detection (`df.select_dtypes(include=[np.number])` plus the
all-NaN filter): every entry numeric or missing, and at least one numeric. -/
def isNumericCol (vs : List Value) : Bool :=
  vs.all (fun v => v.isNum || v == .missing) && vs.any (fun v => v.isNum)

/-- Object-dtype detection for the categorical fallback: the column holds at
least one categorical/text entry. -/
def isCatCol (vs : List Value) : Bool := vs.any (fun v => v.isCat)

/-- Indices of numeric-dtype columns. -/
def numericColIdxs (d : Dataset) : List ℕ :=
  (List.range d.ncols).filter (fun j => isNumericCol (colVals d j))

/-- Modelled from the spec: rows with missing values in numeric columns are
dropped prior to scaling. -/
def retainedRows (d : Dataset) : List (List Value) :=
  d.rows.filter (fun r => (numericColIdxs d).all (fun j => (r.getD j .missing).isNum))

/-- Variance of numeric column `j` over the retained rows. -/
def colVariance (d : Dataset) (j : ℕ) : ℚ :=
  listVar ((retainedRows d).map (fun r => (r.getD j Value.missing).toQ))

/-- Numeric columns that survive the constant-column filter (non-zero
variance over the retained rows). -/
def qualifyingNumericIdxs (d : Dataset) : List ℕ :=
  (numericColIdxs d).filter (fun j => decide (colVariance d j ≠ 0))

/-- Number of distinct values of a column, missing entries counted through
the `__MISSING__` placeholder. -/
def distinctKeyCount (vs : List Value) : ℕ :=
  (firstAppearances (vs.map Value.key)).length

/-- Categorical columns usable for the fallback: object dtype with at least
2 distinct values (placeholder included). -/
def qualifyingCatIdxs (d : Dataset) : List ℕ :=
  (List.range d.ncols).filter
    (fun j => isCatCol (colVals d j) && decide (2 ≤ distinctKeyCount (colVals d j)))

/-- Modelled from the spec: the per-run categorical encoder (LabelEncoder in
FRONTEND_SETUP.md) assigns each entry the position of its value in the order
of first appearance, so the same value always receives the same code within
a run. -/
def encodeColumn (vs : List String) : List ℕ :=
  vs.map (fun v => (firstAppearances vs).indexOf v)

/-- Modelled from the spec: StandardScaler over ℚ, centering a column to mean
zero and dividing by its variance.  (The exact standard deviation is
irrational in general, hence not representable in ℚ; the positive scale
factor chosen does not affect any verified property.) -/
def scaleColumn (xs : List ℚ) : List ℚ :=
  xs.map (fun x => (x - listMean xs) / listVar xs)

/-- Assemble a FeatureMatrix from selected columns: degenerate (zero
variance) columns are dropped rather than causing a divide-by-zero, the
rest are standardized, and rows are recovered by indexing (one matrix row
per entry of the selected columns). -/
def buildMatrix (cols : List (List ℚ)) : FeatureMatrix :=
  let kept := (cols.filter (fun c => decide (listVar c ≠ 0))).map scaleColumn
  ⟨kept.length,
    (List.range (cols.getD 0 []).length).map (fun i => kept.map (fun c => c.getD i 0))⟩

/-- `preprocess_data` (spec §4.1, FRONTEND_SETUP.md feature selection):
numeric columns with variance if any exist, else the categorical fallback,
else the fatal `InsufficientFeatures` error. -/
def preprocess_data (d : Dataset) : Except PipelineError FeatureMatrix :=
  let numIdxs := qualifyingNumericIdxs d
  if numIdxs ≠ [] then
    .ok (buildMatrix (numIdxs.map
      (fun j => (retainedRows d).map (fun r => (r.getD j Value.missing).toQ))))
  else
    let catIdxs := qualifyingCatIdxs d
    if catIdxs ≠ [] then
      .ok (buildMatrix (catIdxs.map
        (fun j => (encodeColumn ((colVals d j).map Value.key)).map (fun c => (c : ℚ)))))
    else .error .insufficientFeatures

/-! ### Clustering execution (spec §4.3; FRONTEND_SETUP.md `execute_clustering`) -/

/-- Index (within `idxs`) minimising `f`, first minimum wins; 0 on empty. -/
def argminQ (f : ℕ → ℚ) : List ℕ → ℕ
  | [] => 0
  | i :: rest => rest.foldl (fun acc j => if f j < f acc then j else acc) i

/-- Modelled from the spec: the centroid-based executor with deterministic
seeding, modelled as nearest-seed assignment with the first `k` rows as
seeds (one assignment step of the iterative algorithm; verified properties
use only the positional alignment of the labels, never their values). -/
def kmeansLabels (k : ℕ) (rows : List (List ℚ)) : List ℤ :=
  let seeds := rows.take k
  rows.map (fun r =>
    ((argminQ (fun i => sqDist r (seeds.getD i [])) (List.range seeds.length) : ℕ) : ℤ))

/-- Number of rows within radius `eps` (squared threshold) of `r`. -/
def neighborCount (rows : List (List ℚ)) (eps : ℚ) (r : List ℚ) : ℕ :=
  (rows.filter (fun s => decide (sqDist r s ≤ eps ^ 2))).length

/-- Modelled from the spec: the radius-based density executor.  A point with
at least `minPts` neighbours within the radius is a core point; every point
takes the label of the first core point within its radius, and points with
no core point in range are noise (`-1`).  (Transitive chain merging of core
points is omitted; verified properties use only alignment and the noise
sentinel.) -/
def dbscanLabels (eps : ℚ) (minPts : ℕ) (rows : List (List ℚ)) : List ℤ :=
  let coreIdxs := (List.range rows.length).filter
    (fun i => decide (minPts ≤ neighborCount rows eps (rows.getD i [])))
  rows.map (fun r =>
    match coreIdxs.find? (fun i => decide (sqDist r (rows.getD i []) ≤ eps ^ 2)) with
    | some i => (i : ℤ)
    | none => -1)

/-- Modelled from the spec: the hierarchical density executor, modelled by
its radius-based core with the derived `min_samples` (the stability-based
flattening over `min_cluster_size` affects only label values, which no
verified property relies on). -/
def hdbscanLabels (min_cluster_size min_samples : ℕ) (rows : List (List ℚ)) : List ℤ :=
  let _ := min_cluster_size
  dbscanLabels defaultEps min_samples rows

/-- Parameter validation (spec §4.2): an explicit cluster count must satisfy
`1 ≤ k < n`, otherwise `InsufficientSamples`; density parameters must be
positive, otherwise `ClusteringExecutionError`. -/
def validateChoice (c : AlgorithmChoice) (n : ℕ) : Option PipelineError :=
  match c with
  | .kmeans k => if 1 ≤ k ∧ k < n then none else some .insufficientSamples
  | .dbscan eps ms => if 0 < eps ∧ 0 < ms then none else some .clusteringExecutionError
  | .hdbscan mcs ms => if 0 < mcs ∧ 0 < ms then none else some .clusteringExecutionError

/-- Dispatch a validated AlgorithmChoice to its executor. -/
def execute_clustering (c : AlgorithmChoice) (m : FeatureMatrix) : List ℤ :=
  match c with
  | .kmeans k => kmeansLabels k m.rows
  | .dbscan eps ms => dbscanLabels eps ms m.rows
  | .hdbscan mcs ms => hdbscanLabels mcs ms m.rows

/-! ### Metric computation (spec §4.4; FRONTEND_SETUP.md `calculate_metrics`) -/

/-- A MetricSet: the three quality scores when at least two distinct
non-noise clusters exist (otherwise empty), plus cluster and noise counts. -/
structure MetricSet : Type where
  scores : Option (ℚ × ℚ × ℚ)
  n_clusters : ℕ
  n_noise : ℕ
deriving DecidableEq, Repr

/-- Minimum of a list with a default for the empty list. -/
def listMinD (xs : List ℚ) (d : ℚ) : ℚ :=
  match xs with
  | [] => d
  | x :: rest => rest.foldl min x

/-- Maximum of a list with a default for the empty list. -/
def listMaxD (xs : List ℚ) (d : ℚ) : ℚ :=
  match xs with
  | [] => d
  | x :: rest => rest.foldl max x

/-- Componentwise mean of a list of vectors. -/
def centroid (vs : List (List ℚ)) : List ℚ :=
  (List.range (vs.getD 0 []).length).map (fun j => listMean (vs.map (fun v => v.getD j 0)))

/-- Mean squared distance from `x` to the vectors of `vs`. -/
def meanDistTo (x : List ℚ) (vs : List (List ℚ)) : ℚ :=
  listMean (vs.map (fun v => sqDist x v))

/-- The feature vectors carrying label `k` among the (row, label) pairs. -/
def clusterMembers (nn : List (List ℚ × ℤ)) (k : ℤ) : List (List ℚ) :=
  (nn.filter (fun q => q.2 == k)).map (fun q => q.1)

/-- Centroid of cluster `k`. -/
def clusterCentroid (nn : List (List ℚ × ℤ)) (k : ℤ) : List ℚ :=
  centroid (clusterMembers nn k)

/-- Mean squared distance of the members of cluster `k` to its centroid. -/
def clusterScatter (nn : List (List ℚ × ℤ)) (k : ℤ) : ℚ :=
  listMean ((clusterMembers nn k).map (fun v => sqDist v (clusterCentroid nn k)))

/-- Modelled from the spec: the cohesion/separation score.  Per point,
compare the mean distance to its own cluster against the smallest mean
distance to another cluster, normalised by the larger of the two; average
over all points.  (ℚ embedding: distances are squared Euclidean.) -/
def silhouetteScore (nn : List (List ℚ × ℤ)) : ℚ :=
  let ks := firstAppearances (nn.map (fun p => p.2))
  listMean (nn.map (fun p =>
    let a := meanDistTo p.1 (clusterMembers nn p.2)
    let b := listMinD ((ks.filter (fun k => decide (k ≠ p.2))).map
      (fun k => meanDistTo p.1 (clusterMembers nn k))) 0
    (b - a) / max a b))

/-- Modelled from the spec: the compactness-to-separation ratio average.
Per cluster, the worst ratio of summed scatters to inter-centroid distance
against any other cluster; averaged over clusters (lower is better). -/
def daviesBouldin (nn : List (List ℚ × ℤ)) : ℚ :=
  let ks := firstAppearances (nn.map (fun p => p.2))
  listMean (ks.map (fun i =>
    listMaxD ((ks.filter (fun k => decide (k ≠ i))).map
      (fun j => (clusterScatter nn i + clusterScatter nn j)
        / sqDist (clusterCentroid nn i) (clusterCentroid nn j))) 0))

/-- Modelled from the spec: the between/within-cluster dispersion ratio
(higher is better). -/
def calinskiHarabasz (nn : List (List ℚ × ℤ)) : ℚ :=
  let ks := firstAppearances (nn.map (fun p => p.2))
  let g := centroid (nn.map (fun p => p.1))
  let between := (ks.map (fun k =>
    ((clusterMembers nn k).length : ℚ) * sqDist (clusterCentroid nn k) g)).sum
  let within := (nn.map (fun p => sqDist p.1 (clusterCentroid nn p.2))).sum
  (between / ((ks.length : ℚ) - 1)) / (within / ((nn.length : ℚ) - (ks.length : ℚ)))

/-- The (row, label) pairs whose label is not the noise sentinel `-1`. -/
def nonNoisePairs (rows : List (List ℚ)) (labels : List ℤ) : List (List ℚ × ℤ) :=
  (rows.zip labels).filter (fun p => decide (p.2 ≠ -1))

/-- The distinct non-noise labels, in order of first appearance. -/
def distinctNonNoise (rows : List (List ℚ)) (labels : List ℤ) : List ℤ :=
  firstAppearances ((nonNoisePairs rows labels).map (fun p => p.2))

/-- `calculate_metrics` (spec §4.4): scores are computed only over non-noise
rows and only when at least 2 distinct non-noise labels exist; cluster and
noise counts are always reported.  A total function: no input throws. -/
def calculate_metrics (rows : List (List ℚ)) (labels : List ℤ) : MetricSet :=
  let nn := nonNoisePairs rows labels
  let ks := firstAppearances (nn.map (fun p => p.2))
  { scores :=
      if ks.length < 2 then none
      else some (silhouetteScore nn, daviesBouldin nn, calinskiHarabasz nn),
    n_clusters := ks.length,
    n_noise := ((rows.zip labels).filter (fun p => p.2 == -1)).length }

/-! ### 2-D projection (spec §4.5; FRONTEND_SETUP.md visualization) -/

/-- A Projection: 2-D coordinates per retained row plus the fraction of the
original variance retained. -/
structure Projection : Type where
  coords : List (List ℚ)
  explainedVar : ℚ
deriving DecidableEq, Repr

/-- Variance of each matrix column. -/
def colVariances (m : FeatureMatrix) : List ℚ :=
  (List.range m.ncols).map (fun j => listVar (m.rows.map (fun r => r.getD j 0)))

/-- Insert index `i` into an index list kept sorted by decreasing `vs` value. -/
def insertIdxBy (vs : List ℚ) (i : ℕ) : List ℕ → List ℕ
  | [] => [i]
  | j :: rest =>
    if vs.getD j 0 ≤ vs.getD i 0 then i :: j :: rest else j :: insertIdxBy vs i rest

/-- Column indices sorted by decreasing variance (insertion sort over
`List.range`, so the result is a permutation of the index range). -/
def sortIdxsByVar (vs : List ℚ) : List ℕ :=
  (List.range vs.length).foldr (insertIdxBy vs) []

/-- Modelled from the spec: the Projection Builder.  A matrix with at most 2
columns is passed through unchanged with full variance retained; otherwise
the two axes of maximal variance are kept (the principal axes are modelled
as coordinate axes; the explained-variance fraction is the variance of the
retained axes over the total). -/
def create_clustering_visualization (m : FeatureMatrix) : Projection :=
  if m.ncols ≤ 2 then ⟨m.rows, 1⟩
  else
    let vs := colVariances m
    let order := sortIdxsByVar vs
    let i1 := order.getD 0 0
    let i2 := order.getD 1 0
    ⟨m.rows.map (fun r => [r.getD i1 0, r.getD i2 0]),
      (vs.getD i1 0 + vs.getD i2 0) / vs.sum⟩

/-! ### The pipeline (spec §6, `run_clustering`) -/

/-- The tuple a successful run hands back to the caller. -/
structure RunResult : Type where
  algorithm_choice : AlgorithmChoice
  labels : List ℤ
  metrics : MetricSet
  projection : Projection
deriving DecidableEq, Repr

/-- Modelled from the spec: `run_clustering` — preprocess, resolve the
algorithm (caller override used as-is when supplied, still validated),
execute, then compute metrics and projection.  Fatal errors abort with no
partial result. -/
def run_clustering (d : Dataset) (override : Option AlgorithmChoice) :
    Except PipelineError RunResult :=
  match preprocess_data d with
  | .error e => .error e
  | .ok m =>
    let choice := override.getD (resolveChoice m.rows.length)
    match validateChoice choice m.rows.length with
    | some e => .error e
    | none =>
      let labels := execute_clustering choice m
      .ok ⟨choice, labels, calculate_metrics m.rows labels,
        create_clustering_visualization m⟩

/-! ### Frontend result summaries (ClusteringResults.tsx, DataScientistControls.tsx) -/

/-- `new Set(result.cluster_labels).size` from the Data Scientist summary in
ClusteringResults: distinct labels, the noise sentinel included. -/
def uniqueClusterCount (labels : List ℤ) : ℕ := labels.dedup.length

/-- `result.cluster_labels.length` from the same summary: every row counts,
noise rows included. -/
def totalPoints (labels : List ℤ) : ℕ := labels.length

/-- `result.cluster_labels.filter((l) => l === -1).length`: the displayed
noise-point count. -/
def noisePointCount (labels : List ℤ) : ℕ :=
  (labels.filter (fun l => l == -1)).length

/-- The "Clustered" stat of DataScientistControls:
`(total_points - noise_points) / total_points * 100`, with no guard against
`total_points = 0` (ℚ embedding of the JS float expression). -/
def clusteredPct (total_points noise_points : ℚ) : ℚ :=
  (total_points - noise_points) / total_points * 100

/-! ### Concrete example inputs used to instantiate the verified properties -/

/-- A 3-row, 1-numeric-column dataset. -/
def exampleDataset3 : Dataset := ⟨1, [[.num 1], [.num 2], [.num 3]]⟩

/-- The FeatureMatrix `preprocess_data` produces from `exampleDataset3`. -/
def exampleMatrix3 : FeatureMatrix := ⟨1, [[-3/2], [0], [3/2]]⟩

/-- The full result of the automatic pipeline on `exampleDataset3`. -/
def exampleResult3 : RunResult :=
  ⟨.kmeans 2, [0, 1, 1], ⟨some (19/24, 1/9, 3), 2, 0⟩, ⟨[[-3/2], [0], [3/2]], 1⟩⟩

/-- A 5-row, 1-numeric-column dataset (the InsufficientSamples scenario). -/
def exampleDataset5 : Dataset :=
  ⟨1, [[.num 1], [.num 2], [.num 3], [.num 4], [.num 5]]⟩

/-- The FeatureMatrix `preprocess_data` produces from `exampleDataset5`. -/
def exampleMatrix5 : FeatureMatrix := ⟨1, [[-1], [-1/2], [0], [1/2], [1]]⟩

/-- A dataset whose only numeric column is constant and whose other column is
all-missing: no usable feature at all. -/
def exampleDatasetBad : Dataset :=
  ⟨2, [[.num 1, .missing], [.num 1, .missing]]⟩

/-- A dataset with one constant numeric column next to one with variance. -/
def exampleDatasetMixed : Dataset :=
  ⟨2, [[.num 1, .num 1], [.num 1, .num 2]]⟩

/-- A 2-column FeatureMatrix for the projection pass-through case. -/
def exampleMatrix2 : FeatureMatrix := ⟨2, [[1, 2], [3, 4]]⟩

/-!
## Theorems

Each claim of the specification is settled by exactly one theorem below;
shared helper lemmas precede them.
-/

/-- C1: the Algorithm Selector's default policy is total in the row count
`n`: `n < 10` chooses K-Means with cluster count 3 capped at `n-1`;
`10 ≤ n ≤ 50` chooses K-Means; `50 < n ≤ 100` chooses DBSCAN; `n > 100`
chooses HDBSCAN; in particular `n = 5` yields K-Means with `k ≤ 4` and
`n = 75` yields DBSCAN. -/
theorem selector_default_policy (n : ℕ) :
    (n < 10 → resolveChoice n = .kmeans (min 3 (n - 1))) ∧
    (10 ≤ n → n ≤ 50 → resolveChoice n = .kmeans 3) ∧
    (50 < n → n ≤ 100 → resolveChoice n = .dbscan defaultEps (max 3 (n / 20))) ∧
    (100 < n → resolveChoice n = .hdbscan (hdbscanMinClusterSize n) (hdbscanMinSamples n)) ∧
    (∃ k, resolveChoice 5 = .kmeans k ∧ k ≤ 5 - 1) ∧
    (∃ eps ms, resolveChoice 75 = .dbscan eps ms) := by
  refine ⟨fun h => ?_, fun h1 h2 => ?_, fun h1 h2 => ?_, fun h => ?_, ?_, ?_⟩
  · simp [resolveChoice, select_algorithm, h]
  · have ha : ¬ n < 10 := by omega
    have hb : ¬ n > 100 := by omega
    have hc : ¬ n > 50 := by omega
    simp [resolveChoice, select_algorithm, ha, hb, hc]
  · have ha : ¬ n < 10 := by omega
    have hb : ¬ n > 100 := by omega
    simp [resolveChoice, select_algorithm, ha, hb, h1]
  · have ha : ¬ n < 10 := by omega
    simp [resolveChoice, select_algorithm, ha, h]
  · exact ⟨3, rfl, by omega⟩
  · exact ⟨defaultEps, 3, rfl⟩

/-- Witness for C1: the policy instantiated at rows counts 5, 30, 75, 500. -/
theorem selector_default_policy_witness :
    resolveChoice 5 = .kmeans 3 ∧ resolveChoice 30 = .kmeans 3 ∧
    resolveChoice 75 = .dbscan defaultEps 3 ∧ resolveChoice 500 = .hdbscan 25 12 :=
  ⟨by simpa using (selector_default_policy 5).1 (by omega),
   (selector_default_policy 30).2.1 (by omega) (by omega),
   by simpa using (selector_default_policy 75).2.2.1 (by omega) (by omega),
   by simpa [hdbscanMinClusterSize, hdbscanMinSamples] using
     (selector_default_policy 500).2.2.2.1 (by omega)⟩

/-- C5: every row count `n > 100` selects HDBSCAN with minimum cluster size
`max(5, n/20)` and minimum samples `max(3, min_cluster_size/2)` (integer
division); in particular `n = 500` yields 25 and 12. -/
theorem hdbscan_parameter_policy (n : ℕ) (h : 100 < n) :
    resolveChoice n = .hdbscan (max 5 (n / 20)) (max 3 (max 5 (n / 20) / 2)) ∧
    hdbscanMinClusterSize 500 = 25 ∧ hdbscanMinSamples 500 = 12 := by
  have ha : ¬ n < 10 := by omega
  refine ⟨?_, by decide, by decide⟩
  simp [resolveChoice, select_algorithm, ha, h, hdbscanMinClusterSize, hdbscanMinSamples]

/-- Witness for C5: the HDBSCAN parameter policy at `n = 500`. -/
theorem hdbscan_parameter_policy_witness :
    resolveChoice 500 = .hdbscan 25 12 :=
  by simpa using (hdbscan_parameter_policy 500 (by omega)).1

/-- C6: a caller-supplied cluster count that is not `≥ 1` and `< n` is
rejected with the fatal `InsufficientSamples` error, with no partial
result. -/
theorem invalid_cluster_count_rejected (d : Dataset) (m : FeatureMatrix) (k : ℕ)
    (hpre : preprocess_data d = .ok m) (hk : ¬(1 ≤ k ∧ k < m.rows.length)) :
    run_clustering d (some (.kmeans k)) = .error .insufficientSamples := by
  unfold run_clustering
  rw [hpre]
  simp [validateChoice, hk]

/-- Witness for C6: the 5-row dataset requesting 10 clusters fails with
`InsufficientSamples`. -/
theorem invalid_cluster_count_rejected_witness :
    run_clustering exampleDataset5 (some (.kmeans 10)) = .error .insufficientSamples := by
  have hpre : preprocess_data exampleDataset5 = .ok exampleMatrix5 := by
    norm_num [preprocess_data, qualifyingNumericIdxs, numericColIdxs, colVals, isNumericCol,
      retainedRows, colVariance, listVar, listMean, buildMatrix, scaleColumn, exampleDataset5,
      exampleMatrix5, List.range_succ, Value.isNum, Value.toQ, List.filter_cons, List.getD]
    norm_num [List.cons_ne_nil, scaleColumn, listVar, listMean]
  refine invalid_cluster_count_rejected exampleDataset5 exampleMatrix5 10 hpre ?_
  rintro ⟨-, hlt⟩
  simp [exampleMatrix5] at hlt

/-- C10: the "Clustered" percentage of DataScientistControls is
`(total - noise) / total * 100` and lies in `[0, 100]` whenever
`0 < total` and `0 ≤ noise ≤ total`. -/
theorem clustered_pct_bounds (total_points noise_points : ℚ)
    (h0 : 0 < total_points) (h1 : 0 ≤ noise_points) (h2 : noise_points ≤ total_points) :
    0 ≤ clusteredPct total_points noise_points ∧
      clusteredPct total_points noise_points ≤ 100 := by
  unfold clusteredPct
  constructor
  · exact mul_nonneg (div_nonneg (by linarith) h0.le) (by norm_num)
  · have hdiv : (total_points - noise_points) / total_points ≤ 1 :=
      div_le_one_of_le₀ (by linarith) h0.le
    have := mul_le_mul_of_nonneg_right hdiv (by norm_num : (0:ℚ) ≤ 100)
    linarith

/-- Witness for C10: 10 total points with 3 noise points give a percentage
within bounds. -/
theorem clustered_pct_bounds_witness :
    0 ≤ clusteredPct 10 3 ∧ clusteredPct 10 3 ≤ 100 :=
  clustered_pct_bounds 10 3 (by norm_num) (by norm_num) (by norm_num)

/-- Every executor produces exactly one label per matrix row. -/
theorem execute_clustering_length (c : AlgorithmChoice) (m : FeatureMatrix) :
    (execute_clustering c m).length = m.rows.length := by
  cases c <;> simp [execute_clustering, kmeansLabels, dbscanLabels, hdbscanLabels]

/-- C2: for every successful run, the LabelAssignment length equals the
FeatureMatrix row count (the matrix rows are the records retained after
missing-value drops), so labels align positionally with the retained
rows. -/
theorem labels_align_with_matrix (d : Dataset) (o : Option AlgorithmChoice)
    (m : FeatureMatrix) (res : RunResult)
    (hrun : run_clustering d o = .ok res) (hpre : preprocess_data d = .ok m) :
    res.labels.length = m.rows.length := by
  unfold run_clustering at hrun
  rw [hpre] at hrun
  dsimp only at hrun
  split at hrun
  · exact absurd hrun (by simp)
  · simp only [Except.ok.injEq] at hrun
    subst hrun
    exact execute_clustering_length _ _

set_option maxHeartbeats 1600000 in
/-- Witness for C2: the pipeline run on the 3-row dataset returns 3 labels,
one per matrix row. -/
theorem labels_align_with_matrix_witness :
    run_clustering exampleDataset3 none = .ok exampleResult3 ∧
    preprocess_data exampleDataset3 = .ok exampleMatrix3 ∧
    exampleResult3.labels.length = exampleMatrix3.rows.length := by
  have hpre : preprocess_data exampleDataset3 = .ok exampleMatrix3 := by
    norm_num [preprocess_data, qualifyingNumericIdxs, numericColIdxs, colVals, isNumericCol,
      retainedRows, colVariance, listVar, listMean, buildMatrix, scaleColumn, exampleDataset3,
      exampleMatrix3, List.range_succ, Value.isNum, Value.toQ, List.filter_cons, List.getD]
    norm_num [List.cons_ne_nil, scaleColumn, listVar, listMean]
  have hrun : run_clustering exampleDataset3 none = .ok exampleResult3 := by
    norm_num [run_clustering, preprocess_data, qualifyingNumericIdxs, numericColIdxs, colVals,
      isNumericCol, retainedRows, colVariance, listVar, listMean, buildMatrix, scaleColumn,
      exampleDataset3, exampleResult3, List.range_succ, Value.isNum, Value.toQ,
      List.filter_cons, List.getD, resolveChoice, select_algorithm, validateChoice,
      execute_clustering, kmeansLabels, argminQ, sqDist, calculate_metrics, nonNoisePairs,
      firstAppearances, silhouetteScore, daviesBouldin, calinskiHarabasz, clusterMembers,
      clusterCentroid, clusterScatter, centroid, meanDistTo, listMinD, listMaxD,
      create_clustering_visualization]
    norm_num [List.cons_ne_nil, scaleColumn, listVar, listMean, firstAppearances,
      List.filter_cons, clusterMembers, clusterCentroid, clusterScatter, centroid,
      meanDistTo, listMinD, listMaxD, sqDist, List.range_succ, List.getD]
  exact ⟨hrun, hpre,
    labels_align_with_matrix exampleDataset3 none exampleMatrix3 exampleResult3 hrun hpre⟩

/-- Zipping the two projections of a list of pairs recovers the list. -/
theorem zip_proj_eq_self {α β : Type} (l : List (α × β)) :
    (l.map (fun p => p.1)).zip (l.map (fun p => p.2)) = l := by
  induction l with
  | nil => rfl
  | cons a l ih => simpa using ih

/-- The non-noise pairs of the non-noise restriction are the non-noise pairs
themselves: restricting to rows with label ≠ -1 is idempotent. -/
theorem nonNoisePairs_idem (rows : List (List ℚ)) (labels : List ℤ) :
    nonNoisePairs ((nonNoisePairs rows labels).map (fun p => p.1))
        ((nonNoisePairs rows labels).map (fun p => p.2)) =
      nonNoisePairs rows labels := by
  unfold nonNoisePairs
  rw [zip_proj_eq_self]
  apply List.filter_eq_self.mpr
  intro a ha
  exact (List.mem_filter.mp ha).2

/-- C3: the Metrics Calculator is total and returns no scores whenever fewer
than 2 distinct non-noise labels exist; and the scores it does compute
depend only on the rows with label ≠ -1 (noise rows are excluded from all
three scores). -/
theorem metrics_empty_and_noise_excluded :
    (∀ (rows : List (List ℚ)) (labels : List ℤ),
      (distinctNonNoise rows labels).length < 2 →
      (calculate_metrics rows labels).scores = none) ∧
    (∀ (rows : List (List ℚ)) (labels : List ℤ),
      (calculate_metrics rows labels).scores =
        (calculate_metrics ((nonNoisePairs rows labels).map (fun p => p.1))
          ((nonNoisePairs rows labels).map (fun p => p.2))).scores) := by
  constructor
  · intro rows labels h
    unfold distinctNonNoise at h
    simp only [calculate_metrics]
    rw [if_pos h]
  · intro rows labels
    simp only [calculate_metrics]
    rw [nonNoisePairs_idem]

/-- Witness for C3: a single non-noise label yields no scores, and dropping
the noise row of a concrete input leaves the scores unchanged. -/
theorem metrics_empty_and_noise_excluded_witness :
    (distinctNonNoise [[1], [2], [3]] [0, 0, -1]).length < 2 ∧
    (calculate_metrics [[1], [2], [3]] [0, 0, -1]).scores = none ∧
    (calculate_metrics [[1], [2], [3], [4]] [0, 1, 0, -1]).scores =
      (calculate_metrics
        ((nonNoisePairs [[1], [2], [3], [4]] [0, 1, 0, -1]).map (fun p => p.1))
        ((nonNoisePairs [[1], [2], [3], [4]] [0, 1, 0, -1]).map (fun p => p.2))).scores := by
  have hlen : (distinctNonNoise [[1], [2], [3]] [0, 0, -1]).length < 2 := by
    norm_num [distinctNonNoise, nonNoisePairs, firstAppearances, List.filter_cons]
  exact ⟨hlen,
    metrics_empty_and_noise_excluded.1 [[1], [2], [3]] [0, 0, -1] hlen,
    metrics_empty_and_noise_excluded.2 [[1], [2], [3], [4]] [0, 1, 0, -1]⟩

/-- No numeric column qualifies iff every column either is not numeric-dtype
or has zero variance over the retained rows. -/
theorem qualNum_eq_nil_iff (d : Dataset) :
    qualifyingNumericIdxs d = [] ↔
      ∀ j, j < d.ncols → isNumericCol (colVals d j) = false ∨ colVariance d j = 0 := by
  unfold qualifyingNumericIdxs numericColIdxs
  rw [List.filter_eq_nil_iff]
  constructor
  · intro h j hj
    by_cases hnum : isNumericCol (colVals d j) = true
    · have hmem : j ∈ (List.range d.ncols).filter (fun j => isNumericCol (colVals d j)) :=
        List.mem_filter.mpr ⟨List.mem_range.mpr hj, hnum⟩
      right
      have := h j hmem
      simpa using this
    · left
      simpa using hnum
  · intro h j hjmem
    obtain ⟨hjr, hnum⟩ := List.mem_filter.mp hjmem
    rcases h j (List.mem_range.mp hjr) with hfalse | hvar
    · rw [hfalse] at hnum
      exact absurd hnum (by simp)
    · simp [hvar]

/-- No categorical column qualifies iff every column either is not object
dtype or has fewer than 2 distinct values (placeholder included). -/
theorem qualCat_eq_nil_iff (d : Dataset) :
    qualifyingCatIdxs d = [] ↔
      ∀ j, j < d.ncols →
        isCatCol (colVals d j) = false ∨ distinctKeyCount (colVals d j) < 2 := by
  unfold qualifyingCatIdxs
  rw [List.filter_eq_nil_iff]
  constructor
  · intro h j hj
    have h2 := h j (List.mem_range.mpr hj)
    by_cases hcat : isCatCol (colVals d j) = true
    · right
      simp only [Bool.and_eq_true, decide_eq_true_eq, not_and, not_le, hcat,
        forall_const] at h2
      exact h2
    · left
      simpa using hcat
  · intro h j hjmem
    have hj := List.mem_range.mp hjmem
    intro hcontra
    simp only [Bool.and_eq_true, decide_eq_true_eq] at hcontra
    obtain ⟨hcat, hle⟩ := hcontra
    rcases h j hj with hfalse | hlt
    · rw [hfalse] at hcat
      exact absurd hcat (by simp)
    · omega

/-- C4: the Feature Preprocessor fails with `InsufficientFeatures` if and
only if no numeric column has non-zero variance and no categorical column
has at least 2 distinct values (the placeholder substituted for missing
entries counting as a value); a single numeric column with variance
prevents the error even when other numeric columns are constant. -/
theorem insufficient_features_iff (d : Dataset) :
    preprocess_data d = .error .insufficientFeatures ↔
      ((∀ j, j < d.ncols → isNumericCol (colVals d j) = false ∨ colVariance d j = 0) ∧
       (∀ j, j < d.ncols →
         isCatCol (colVals d j) = false ∨ distinctKeyCount (colVals d j) < 2)) := by
  rw [← qualNum_eq_nil_iff, ← qualCat_eq_nil_iff]
  constructor
  · intro herr
    by_cases h1 : qualifyingNumericIdxs d = []
    · by_cases h2 : qualifyingCatIdxs d = []
      · exact ⟨h1, h2⟩
      · exact absurd herr (by simp [preprocess_data, h1, h2])
    · exact absurd herr (by simp [preprocess_data, h1])
  · rintro ⟨h1, h2⟩
    simp [preprocess_data, h1, h2]

/-- Witness for C4: a dataset whose only numeric column is constant and with
no usable categorical column fails with `InsufficientFeatures`, while a
dataset with one constant and one varying numeric column does not. -/
theorem insufficient_features_iff_witness :
    preprocess_data exampleDatasetBad = .error .insufficientFeatures ∧
    preprocess_data exampleDatasetMixed ≠ .error .insufficientFeatures := by
  constructor
  · apply (insufficient_features_iff exampleDatasetBad).mpr
    constructor
    · intro j hj
      have hj2 : j < 2 := by simpa [exampleDatasetBad] using hj
      interval_cases j
      · right
        norm_num [colVariance, retainedRows, numericColIdxs, colVals, isNumericCol,
          listVar, listMean, exampleDatasetBad, List.range_succ, Value.isNum, Value.toQ,
          List.filter_cons, List.getD]
      · left
        norm_num [isNumericCol, colVals, exampleDatasetBad, Value.isNum, List.getD]
    · intro j hj
      have hj2 : j < 2 := by simpa [exampleDatasetBad] using hj
      interval_cases j <;>
        · left
          norm_num [isCatCol, colVals, exampleDatasetBad, Value.isCat, List.getD]
  · intro h
    rcases ((insufficient_features_iff exampleDatasetMixed).mp h).1 1
        (by norm_num [exampleDatasetMixed]) with hfalse | hvar
    · revert hfalse
      norm_num [isNumericCol, colVals, exampleDatasetMixed, Value.isNum, List.getD]
    · revert hvar
      norm_num [colVariance, retainedRows, numericColIdxs, colVals, isNumericCol,
        listVar, listMean, exampleDatasetMixed, List.range_succ, Value.isNum, Value.toQ,
        List.filter_cons, List.getD]

/-- `firstAppearances` keeps exactly the values of the input. -/
theorem mem_firstAppearances {α : Type} [DecidableEq α] (l : List α) (a : α) :
    a ∈ firstAppearances l ↔ a ∈ l := by
  induction l using firstAppearances.induct with
  | case1 => simp [firstAppearances]
  | case2 v rest ih =>
    rw [firstAppearances]
    simp only [List.mem_cons, ih, List.mem_filter, decide_eq_true_eq]
    constructor
    · rintro (rfl | ⟨h, -⟩)
      · exact .inl rfl
      · exact .inr h
    · rintro (rfl | h)
      · exact .inl rfl
      · by_cases hv : a = v
        · exact .inl hv
        · exact .inr ⟨h, hv⟩

/-- `firstAppearances` lists each value once. -/
theorem nodup_firstAppearances {α : Type} [DecidableEq α] (l : List α) :
    (firstAppearances l).Nodup := by
  induction l using firstAppearances.induct with
  | case1 => simp [firstAppearances]
  | case2 v rest ih =>
    rw [firstAppearances]
    refine List.nodup_cons.mpr ⟨?_, ih⟩
    intro hv
    have := (mem_firstAppearances _ _).mp hv
    simp [List.mem_filter] at this

/-- The number of first appearances is the number of distinct values. -/
theorem length_firstAppearances_eq_card {α : Type} [DecidableEq α] (l : List α) :
    (firstAppearances l).length = l.toFinset.card := by
  have h1 : (firstAppearances l).toFinset = l.toFinset := by
    ext a
    simp [List.mem_toFinset, mem_firstAppearances]
  rw [← h1, List.toFinset_card_of_nodup (nodup_firstAppearances l)]

/-- Projecting the second components commutes with filtering on them. -/
theorem map_snd_filter_snd {α β : Type} (q : β → Bool) (l : List (α × β)) :
    (l.filter (fun p => q p.2)).map (fun p => p.2) = (l.map (fun p => p.2)).filter q := by
  induction l with
  | nil => rfl
  | cons a l ih =>
    by_cases h : q a.2 <;> simp [h, ih]

/-- Second components of a zip of equal-length lists. -/
theorem zip_map_snd {α β : Type} (as : List α) (bs : List β) (h : as.length = bs.length) :
    (as.zip bs).map (fun p => p.2) = bs := by
  induction as generalizing bs with
  | nil =>
    cases bs with
    | nil => rfl
    | cons b bs => simp at h
  | cons a as ih =>
    cases bs with
    | nil => simp at h
    | cons b bs => simpa using ih bs (by simpa using h)

/-- C9: the Data Scientist summary counts distinct labels noise included:
when `-1` occurs, the displayed unique-cluster count is exactly one more
than the MetricSet's count of distinct non-noise labels, and the displayed
total is the full label-array length, noise rows included. -/
theorem unique_clusters_include_noise (rows : List (List ℚ)) (labels : List ℤ)
    (hlen : rows.length = labels.length) (hnoise : (-1 : ℤ) ∈ labels) :
    uniqueClusterCount labels = (calculate_metrics rows labels).n_clusters + 1 ∧
    totalPoints labels = labels.length := by
  refine ⟨?_, rfl⟩
  have hcount : (calculate_metrics rows labels).n_clusters =
      labels.toFinset.card - 1 := by
    show (firstAppearances ((nonNoisePairs rows labels).map (fun p => p.2))).length = _
    rw [length_firstAppearances_eq_card]
    unfold nonNoisePairs
    rw [map_snd_filter_snd (fun x => decide (x ≠ -1)) (rows.zip labels),
      zip_map_snd rows labels hlen, List.toFinset_filter]
    simp only [decide_eq_true_eq]
    rw [Finset.filter_ne', Finset.card_erase_of_mem (List.mem_toFinset.mpr hnoise)]
  have hcard : 1 ≤ labels.toFinset.card :=
    Finset.card_pos.mpr ⟨-1, List.mem_toFinset.mpr hnoise⟩
  unfold uniqueClusterCount
  rw [← List.card_toFinset, hcount]
  omega

/-- Witness for C9: labels `[0, -1, 1]` display 3 unique clusters, one more
than the 2 distinct non-noise labels, over 3 total points. -/
theorem unique_clusters_include_noise_witness :
    uniqueClusterCount [0, -1, 1] =
      (calculate_metrics [[1], [2], [3]] [0, -1, 1]).n_clusters + 1 ∧
    totalPoints [0, -1, 1] = ([0, -1, 1] : List ℤ).length :=
  unique_clusters_include_noise [[1], [2], [3]] [0, -1, 1] (by simp) (by simp)

/-- Filtering commutes with taking the prefix before a kept value's first
occurrence. -/
theorem filter_take_indexOf {α : Type} [DecidableEq α] (p : α → Bool) :
    ∀ (l : List α) (v : α), v ∈ l → p v = true →
      (l.filter p).take (List.indexOf v (l.filter p)) =
        (l.take (List.indexOf v l)).filter p
  | [], v, hv, _ => absurd hv (List.not_mem_nil v)
  | a :: l, v, hv, hp => by
    by_cases hav : a = v
    · subst hav
      rw [List.filter_cons_of_pos hp, List.indexOf_cons_self, List.indexOf_cons_self]
      simp
    · have hvl : v ∈ l := by
        rcases List.mem_cons.mp hv with h | h
        · exact absurd h.symm hav
        · exact h
      rw [List.indexOf_cons_ne l hav]
      by_cases hpa : p a = true
      · rw [List.filter_cons_of_pos hpa, List.indexOf_cons_ne _ hav, Nat.succ_eq_add_one,
          Nat.succ_eq_add_one, List.take_succ_cons, List.take_succ_cons,
          List.filter_cons_of_pos hpa, filter_take_indexOf p l v hvl hp]
      · rw [List.filter_cons_of_neg hpa, Nat.succ_eq_add_one, List.take_succ_cons,
          List.filter_cons_of_neg hpa, filter_take_indexOf p l v hvl hp]

/-- The code `firstAppearances` assigns to a value is the number of distinct
values appearing strictly before its first occurrence. -/
theorem indexOf_firstAppearances {α : Type} [DecidableEq α] :
    ∀ (vs : List α) (v : α), v ∈ vs →
      List.indexOf v (firstAppearances vs) =
        (firstAppearances (vs.take (List.indexOf v vs))).length
  | [], v, hv => absurd hv (List.not_mem_nil v)
  | w :: rest, v, hv => by
    rw [firstAppearances]
    by_cases hvw : v = w
    · subst hvw
      rw [List.indexOf_cons_self, List.indexOf_cons_self]
      simp [firstAppearances]
    · have hvrest : v ∈ rest := by
        rcases List.mem_cons.mp hv with h | h
        · exact absurd h hvw
        · exact h
      have hwv : w ≠ v := fun h => hvw h.symm
      rw [List.indexOf_cons_ne _ hwv, List.indexOf_cons_ne _ hwv, Nat.succ_eq_add_one,
        Nat.succ_eq_add_one, List.take_succ_cons, firstAppearances, List.length_cons]
      congr 1
      have hvfil : v ∈ rest.filter (fun x => decide (x ≠ w)) :=
        List.mem_filter.mpr ⟨hvrest, by simpa using hvw⟩
      have hrec := indexOf_firstAppearances (rest.filter (fun x => decide (x ≠ w))) v hvfil
      rw [hrec, filter_take_indexOf (fun x => decide (x ≠ w)) rest v hvrest (by simpa using hvw)]
termination_by vs => vs.length
decreasing_by
  simp only [List.length_cons]
  exact Nat.lt_succ_of_le (List.length_filter_le _ _)

/-- C8: the Feature Preprocessor is deterministic (re-running it on
identical input yields identical output), and the categorical encoder is
stable within a run: equal values receive equal codes, and the code at each
position is the rank of that value's first appearance (the number of
distinct values seen strictly before it). -/
theorem preprocessor_deterministic_and_encoding_stable :
    (∀ d : Dataset, preprocess_data d = preprocess_data d) ∧
    (∀ (vs : List String) (i j : ℕ), i < vs.length → j < vs.length →
      vs.getD i "" = vs.getD j "" →
      (encodeColumn vs).getD i 0 = (encodeColumn vs).getD j 0) ∧
    (∀ (vs : List String) (i : ℕ), i < vs.length →
      (encodeColumn vs).getD i 0 =
        (firstAppearances (vs.take (List.indexOf (vs.getD i "") vs))).length) := by
  refine ⟨fun d => rfl, ?_, ?_⟩
  · intro vs i j hi hj hval
    unfold encodeColumn
    rw [List.getD_eq_getElem _ _ (by simpa using hi),
      List.getD_eq_getElem _ _ (by simpa using hj), List.getElem_map, List.getElem_map]
    rw [List.getD_eq_getElem _ _ hi, List.getD_eq_getElem _ _ hj] at hval
    rw [hval]
  · intro vs i hi
    unfold encodeColumn
    rw [List.getD_eq_getElem _ _ (by simpa using hi), List.getElem_map,
      List.getD_eq_getElem _ _ hi]
    exact indexOf_firstAppearances vs (vs[i]) (List.getElem_mem _)

/-- Witness for C8: determinism on the 3-row dataset, and stable
first-appearance codes on the column `["a", "b", "a"]`. -/
theorem preprocessor_deterministic_and_encoding_stable_witness :
    preprocess_data exampleDataset3 = preprocess_data exampleDataset3 ∧
    (encodeColumn ["a", "b", "a"]).getD 0 0 = (encodeColumn ["a", "b", "a"]).getD 2 0 ∧
    (encodeColumn ["a", "b", "a"]).getD 1 0 =
      (firstAppearances ((["a", "b", "a"] : List String).take
        (List.indexOf ((["a", "b", "a"] : List String).getD 1 "") ["a", "b", "a"]))).length :=
  ⟨preprocessor_deterministic_and_encoding_stable.1 exampleDataset3,
   preprocessor_deterministic_and_encoding_stable.2.1 ["a", "b", "a"] 0 2
     (by simp) (by simp) rfl,
   preprocessor_deterministic_and_encoding_stable.2.2 ["a", "b", "a"] 1 (by simp)⟩

/-- The mean of nonnegative values is nonnegative. -/
theorem listMean_nonneg (xs : List ℚ) (h : ∀ x ∈ xs, 0 ≤ x) : 0 ≤ listMean xs :=
  div_nonneg (List.sum_nonneg h) (by positivity)

/-- Variances are nonnegative. -/
theorem listVar_nonneg (xs : List ℚ) : 0 ≤ listVar xs := by
  apply listMean_nonneg
  intro x hx
  obtain ⟨y, -, rfl⟩ := List.mem_map.mp hx
  positivity

/-- A list sum as a sum over its index range. -/
theorem sum_eq_sum_range_getD (vs : List ℚ) :
    vs.sum = ∑ i in Finset.range vs.length, vs.getD i 0 := by
  induction vs with
  | nil => simp
  | cons a l ih =>
    rw [List.sum_cons, List.length_cons, Finset.sum_range_succ']
    simp only [List.getD_cons_succ, List.getD_cons_zero]
    rw [ih]
    ring

/-- Two distinct entries of a nonnegative list are bounded by its sum. -/
theorem getD_pair_le_sum (vs : List ℚ) (h : ∀ x ∈ vs, 0 ≤ x) (i1 i2 : ℕ)
    (h1 : i1 < vs.length) (h2 : i2 < vs.length) (hne : i1 ≠ i2) :
    vs.getD i1 0 + vs.getD i2 0 ≤ vs.sum := by
  have hgd : ∀ i : ℕ, 0 ≤ vs.getD i 0 := by
    intro i
    by_cases hi : i < vs.length
    · rw [List.getD_eq_getElem _ _ hi]
      exact h _ (List.getElem_mem _)
    · rw [List.getD_eq_default _ _ (le_of_not_lt hi)]
  rw [sum_eq_sum_range_getD]
  have hsub : ({i1, i2} : Finset ℕ) ⊆ Finset.range vs.length := by
    intro x hx
    rcases Finset.mem_insert.mp hx with rfl | hx
    · exact Finset.mem_range.mpr h1
    · rw [Finset.mem_singleton.mp hx]
      exact Finset.mem_range.mpr h2
  calc vs.getD i1 0 + vs.getD i2 0
      = ∑ i in ({i1, i2} : Finset ℕ), vs.getD i 0 :=
        (@Finset.sum_pair ℕ ℚ (fun i => vs.getD i 0) _ _ i1 i2 hne).symm
    _ ≤ ∑ i in Finset.range vs.length, vs.getD i 0 :=
        Finset.sum_le_sum_of_subset_of_nonneg hsub (fun i _ _ => hgd i)

/-- Inserting an index keeps the list a permutation of the cons. -/
theorem insertIdxBy_perm (vs : List ℚ) (i : ℕ) (l : List ℕ) :
    (insertIdxBy vs i l).Perm (i :: l) := by
  induction l with
  | nil => simp [insertIdxBy]
  | cons j rest ih =>
    rw [insertIdxBy]
    by_cases h : vs.getD j 0 ≤ vs.getD i 0
    · rw [if_pos h]
    · rw [if_neg h]
      exact (ih.cons j).trans (List.Perm.swap i j rest)

/-- The variance-sorted index list is a permutation of the index range. -/
theorem sortIdxsByVar_perm (vs : List ℚ) :
    (sortIdxsByVar vs).Perm (List.range vs.length) := by
  unfold sortIdxsByVar
  generalize List.range vs.length = l
  induction l with
  | nil => simp
  | cons a l ih =>
    rw [List.foldr_cons]
    exact (insertIdxBy_perm vs a _).trans (ih.cons a)

/-- The sorted index list has one entry per column. -/
theorem sortIdxsByVar_length (vs : List ℚ) :
    (sortIdxsByVar vs).length = vs.length := by
  rw [(sortIdxsByVar_perm vs).length_eq, List.length_range]

/-- The sorted index list has no duplicates. -/
theorem sortIdxsByVar_nodup (vs : List ℚ) : (sortIdxsByVar vs).Nodup :=
  ((sortIdxsByVar_perm vs).nodup_iff).mpr (List.nodup_range _)

/-- Every sorted index is a valid column index. -/
theorem sortIdxsByVar_mem_lt (vs : List ℚ) (i : ℕ) (h : i ∈ sortIdxsByVar vs) :
    i < vs.length :=
  List.mem_range.mp ((sortIdxsByVar_perm vs).mem_iff.mp h)

/-- The variance fraction of the two top-variance axes of a nonnegative
variance list with at least 3 entries lies in [0, 1]. -/
theorem explainedVar_bounds (vs : List ℚ) (h3 : 3 ≤ vs.length)
    (hnn : ∀ x ∈ vs, 0 ≤ x) :
    0 ≤ (vs.getD ((sortIdxsByVar vs).getD 0 0) 0 +
          vs.getD ((sortIdxsByVar vs).getD 1 0) 0) / vs.sum ∧
    (vs.getD ((sortIdxsByVar vs).getD 0 0) 0 +
          vs.getD ((sortIdxsByVar vs).getD 1 0) 0) / vs.sum ≤ 1 := by
  have holen : (sortIdxsByVar vs).length = vs.length := sortIdxsByVar_length vs
  have h0 : 0 < (sortIdxsByVar vs).length := by omega
  have h1 : 1 < (sortIdxsByVar vs).length := by omega
  have hmem1 : (sortIdxsByVar vs).getD 0 0 ∈ sortIdxsByVar vs := by
    rw [List.getD_eq_getElem _ _ h0]
    exact List.getElem_mem _
  have hmem2 : (sortIdxsByVar vs).getD 1 0 ∈ sortIdxsByVar vs := by
    rw [List.getD_eq_getElem _ _ h1]
    exact List.getElem_mem _
  have hl1 := sortIdxsByVar_mem_lt vs _ hmem1
  have hl2 := sortIdxsByVar_mem_lt vs _ hmem2
  have hne : (sortIdxsByVar vs).getD 0 0 ≠ (sortIdxsByVar vs).getD 1 0 := by
    rw [List.getD_eq_getElem _ _ h0, List.getD_eq_getElem _ _ h1]
    intro heq
    have hnd := sortIdxsByVar_nodup vs
    have : (⟨0, h0⟩ : Fin (sortIdxsByVar vs).length) = ⟨1, h1⟩ :=
      hnd.get_inj_iff.mp (by simpa [List.get_eq_getElem] using heq)
    simp at this
  have hgd : ∀ i : ℕ, 0 ≤ vs.getD i 0 := by
    intro i
    by_cases hi : i < vs.length
    · rw [List.getD_eq_getElem _ _ hi]
      exact hnn _ (List.getElem_mem _)
    · rw [List.getD_eq_default _ _ (le_of_not_lt hi)]
  constructor
  · exact div_nonneg (add_nonneg (hgd _) (hgd _)) (List.sum_nonneg hnn)
  · exact div_le_one_of_le₀ (getD_pair_le_sum vs hnn _ _ hl1 hl2 hne)
      (List.sum_nonneg hnn)

/-- C7: the Projection's explained-variance fraction lies in [0, 1] for
every FeatureMatrix, and a matrix with at most 2 columns is passed through
with its rows unchanged. -/
theorem projection_variance_and_passthrough :
    (∀ m : FeatureMatrix, 0 ≤ (create_clustering_visualization m).explainedVar ∧
      (create_clustering_visualization m).explainedVar ≤ 1) ∧
    (∀ m : FeatureMatrix, m.ncols ≤ 2 →
      (create_clustering_visualization m).coords = m.rows) := by
  constructor
  · intro m
    unfold create_clustering_visualization
    by_cases h : m.ncols ≤ 2
    · rw [if_pos h]
      norm_num
    · rw [if_neg h]
      have hlen : (colVariances m).length = m.ncols := by
        simp [colVariances]
      exact explainedVar_bounds (colVariances m) (by omega) (fun x hx => by
        simp only [colVariances] at hx
        obtain ⟨j, -, rfl⟩ := List.mem_map.mp hx
        exact listVar_nonneg _)
  · intro m h
    simp [create_clustering_visualization, h]

/-- Witness for C7: the 2-column matrix is passed through unchanged with an
explained-variance fraction within bounds. -/
theorem projection_variance_and_passthrough_witness :
    (create_clustering_visualization exampleMatrix2).coords = exampleMatrix2.rows ∧
    0 ≤ (create_clustering_visualization exampleMatrix2).explainedVar ∧
    (create_clustering_visualization exampleMatrix2).explainedVar ≤ 1 :=
  ⟨projection_variance_and_passthrough.2 exampleMatrix2 (by decide),
   (projection_variance_and_passthrough.1 exampleMatrix2).1,
   (projection_variance_and_passthrough.1 exampleMatrix2).2⟩

end ClusteringPlatform
